import Mathlib

/-!
Fractal image generator: bitmap encoder, escape loop and work partition.

A shallow embedding of `src/main.cpp`.

* Bytes (`std::uint8_t`) are natural numbers below 256; `int` values that the
  program only ever holds as non-negative numbers are natural numbers, and the
  one place where an `int` goes negative (`end = begin + splitSize - 1`) is an
  integer.
  These numbers are unbounded: the statements are about dimensions whose
  products the program can hold in an `int`.
* Behaviour the language leaves undefined (a store outside the pixel buffer,
  an iterator that leaves the vector, an `int` overflow in `Bitmap::write`) is
  the result `none`.
* The `double` arithmetic of the coordinate mapping and of the escape loop is a
  parameter (`FloatOps`): they are run over an arbitrary implementation of the
  operations they call. The colour computation, which starts from an integer,
  is carried out with a correctly rounded binary64 quotient.
* The worker threads are modelled by their per-pixel steps; `render` is the
  schedule that runs the threads one after the other.
-/

set_option linter.unusedVariables false

namespace Fractal

/-! ## Byte-level helpers -/

/-- The `k` low-order bytes of `v`, least significant first. -/
def leBytes : Nat → Nat → List Nat
  | 0, _ => []
  | k + 1, v => (v % 256) :: leBytes k (v / 256)

/-- Object representation of a `std::int32_t` holding `v` on a little-endian
two's-complement machine. -/
def int32Bytes (v : Int) : List Nat := leBytes 4 (v % 2 ^ 32).toNat

/-- Object representation of a `std::int16_t` holding `v`. -/
def int16Bytes (v : Int) : List Nat := leBytes 2 (v % 2 ^ 16).toNat

/-- A struct member: the natural alignment of its type and its bytes. -/
structure Field where
  align : Nat
  bytes : List Nat

/-- Number of padding bytes needed to bring offset `off` up to a multiple of `a`. -/
def padTo (a off : Nat) : Nat := (a - off % a) % a

/-- Members laid out in declaration order from offset `off` under
`#pragma pack(pack)`: each member is aligned to `min align pack`, padding
bytes are written as 0. -/
def layoutFields (pack : Nat) : Nat → List Field → List Nat
  | _, [] => []
  | off, f :: fs =>
    let pad := padTo (min f.align pack) off
    List.replicate pad 0 ++ f.bytes ++
      layoutFields pack (off + pad + f.bytes.length) fs

/-- Alignment of the whole struct under `#pragma pack(pack)`. -/
def structAlign (pack : Nat) (fs : List Field) : Nat :=
  fs.foldl (fun a f => max a (min f.align pack)) 1

/-- Object representation of a struct: the members, then tail padding up to a
multiple of the struct alignment. -/
def structBytes (pack : Nat) (fs : List Field) : List Nat :=
  let body := layoutFields pack 0 fs
  body ++ List.replicate (padTo (structAlign pack fs) body.length) 0

/-! ## `BitmapFileHeader`, `BitmapInfoHeader` -/

/-- The `struct BitmapFileHeader` under `#pragma pack(2)`. -/
structure BitmapFileHeader where
  header : List Nat := [66, 77]
  fileSize : Int
  reserved : Int := 0
  dataOffset : Int

/-- The `struct BitmapInfoHeader` under `#pragma pack(2)`. -/
structure BitmapInfoHeader where
  headerSize : Int := 40
  width : Int
  height : Int
  planes : Int := 1
  bitsPerPixel : Int := 24
  compression : Int := 0
  dataSize : Int := 0
  horizontalResolution : Int := 2400
  verticalResolution : Int := 2400
  colors : Int := 0
  importantColors : Int := 0

/-- Members of `BitmapFileHeader` in declaration order. -/
def BitmapFileHeader.fields (h : BitmapFileHeader) : List Field :=
  [⟨1, h.header⟩, ⟨4, int32Bytes h.fileSize⟩, ⟨4, int32Bytes h.reserved⟩,
   ⟨4, int32Bytes h.dataOffset⟩]

/-- Members of `BitmapInfoHeader` in declaration order. -/
def BitmapInfoHeader.fields (h : BitmapInfoHeader) : List Field :=
  [⟨4, int32Bytes h.headerSize⟩, ⟨4, int32Bytes h.width⟩, ⟨4, int32Bytes h.height⟩,
   ⟨2, int16Bytes h.planes⟩, ⟨2, int16Bytes h.bitsPerPixel⟩,
   ⟨4, int32Bytes h.compression⟩, ⟨4, int32Bytes h.dataSize⟩,
   ⟨4, int32Bytes h.horizontalResolution⟩, ⟨4, int32Bytes h.verticalResolution⟩,
   ⟨4, int32Bytes h.colors⟩, ⟨4, int32Bytes h.importantColors⟩]

/-- The bytes `file.write(reinterpret_cast<char*>(&fileHeader), sizeof(fileHeader))` emits. -/
def BitmapFileHeader.toBytes (h : BitmapFileHeader) : List Nat := structBytes 2 h.fields

/-- The bytes `file.write(reinterpret_cast<char*>(&infoHeader), sizeof(infoHeader))` emits. -/
def BitmapInfoHeader.toBytes (h : BitmapInfoHeader) : List Nat := structBytes 2 h.fields

/-- Value of `sizeof(BitmapFileHeader)`: the length of its object representation
(the contents of the members do not matter). -/
def sizeofBitmapFileHeader : Nat :=
  (BitmapFileHeader.toBytes { fileSize := 0, dataOffset := 0 }).length

/-- Value of `sizeof(BitmapInfoHeader)`. -/
def sizeofBitmapInfoHeader : Nat :=
  (BitmapInfoHeader.toBytes { width := 0, height := 0 }).length

/-! ## `Bitmap` -/

/-- The `class Bitmap`: dimensions and the owned pixel array. -/
structure Bitmap where
  m_width : Nat
  m_height : Nat
  m_pPixels : List Nat
deriving DecidableEq, Repr

/-- The constructor `Bitmap::Bitmap(int width, int height)`: `new uint8_t[width * height * 3]{}`. -/
def Bitmap.new (width height : Nat) : Bitmap :=
  { m_width := width, m_height := height,
    m_pPixels := List.replicate (width * height * 3) 0 }

/-- Largest value of an `int`. -/
def INT_MAX : Nat := 2 ^ 31 - 1

/-- The method `Bitmap::write`, as the byte stream handed to the file when the file opens:
file header, info header, then `m_width * m_height * 3` bytes of `m_pPixels`.
`none` when `m_width * m_height * 3` overflows `int` or the array is shorter
than the number of bytes read from it. -/
def Bitmap.write (b : Bitmap) : Option (List Nat) :=
  let n := b.m_width * b.m_height * 3
  if n ≤ INT_MAX ∧ n ≤ b.m_pPixels.length then
    let fileHeader : BitmapFileHeader :=
      { fileSize := ((sizeofBitmapFileHeader + sizeofBitmapInfoHeader + n : Nat) : Int),
        dataOffset := ((sizeofBitmapFileHeader + sizeofBitmapInfoHeader : Nat) : Int) }
    let infoHeader : BitmapInfoHeader :=
      { width := (b.m_width : Int), height := (b.m_height : Int) }
    some (fileHeader.toBytes ++ infoHeader.toBytes ++ b.m_pPixels.take n)
  else none

/-- Offset of the pointer `pPixel` in `Bitmap::setPixel`:
`(y * 3) * m_width + (x * 3)`. -/
def Bitmap.pixelOffset (b : Bitmap) (x y : Nat) : Nat := (y * 3) * b.m_width + (x * 3)

/-- The method `Bitmap::setPixel`: `pPixel[0] = blue; pPixel[1] = green; pPixel[2] = red`.
`none` when one of the three stores falls outside the array. -/
def Bitmap.setPixel (b : Bitmap) (x y : Nat) (red green blue : Nat) : Option Bitmap :=
  let off := b.pixelOffset x y
  if off + 2 < b.m_pPixels.length then
    some { b with
      m_pPixels := ((b.m_pPixels.set off blue).set (off + 1) green).set (off + 2) red }
  else none

/-! ## `Mandelbrot` -/

/-- The constant `Mandelbrot::MAX_ITERATIONS`. -/
def MAX_ITERATIONS : Nat := 100

/-- The `double` and `std::complex<double>` operations the program calls, over a
carrier `D` for `double`; a complex number is a pair (real part, imaginary
part). Nothing is assumed about what the operations compute. -/
structure FloatOps (D : Type) where
  /-- Conversion `int → double`. -/
  ofInt : Int → D
  /-- The literal `2.0`. -/
  lit2_0 : D
  /-- The literal `4.5`. -/
  lit4_5 : D
  /-- Subtraction `double - double`. -/
  sub : D → D → D
  /-- Product `double * double`. -/
  mul : D → D → D
  /-- Quotient `double / double`. -/
  div : D → D → D
  /-- The `operator*` of `std::complex<double>`. -/
  cmul : D × D → D × D → D × D
  /-- The `operator+` of `std::complex<double>`. -/
  cadd : D × D → D × D → D × D
  /-- The `std::abs` of a `std::complex<double>`. -/
  cabs : D × D → D
  /-- Comparison `double > double`. -/
  gt : D → D → Bool

/-- The `while` loop of `Mandelbrot::getIterations`. The first argument is
`MAX_ITERATIONS - iterations`, the number of times the guard
`iterations < MAX_ITERATIONS` can still succeed. -/
def getIterationsLoop {D : Type} (ops : FloatOps D) (c : D × D) : Nat → D × D → Nat → Nat
  | 0, _, iterations => iterations
  | remaining + 1, z, iterations =>
    let z1 := ops.cadd (ops.cmul z z) c
    if ops.gt (ops.cabs z1) (ops.ofInt 2) then iterations
    else getIterationsLoop ops c remaining z1 (iterations + 1)

/-- The function `Mandelbrot::getIterations(double x, double y)`: `z {0}`, `c {x, y}`,
`iterations {0}`, then the loop. -/
def getIterations {D : Type} (ops : FloatOps D) (x y : D) : Nat :=
  getIterationsLoop ops (x, y) MAX_ITERATIONS (ops.ofInt 0, ops.ofInt 0) 0

/-! ## `main` -/

/-- The `struct Pixel`. -/
structure Pixel where
  x : Nat
  y : Nat
  red : Nat := 0
  green : Nat := 0
  blue : Nat := 0
deriving DecidableEq, Repr

/-- The vector `pixels` after the two enumeration loops (`y` outer, `x` inner). -/
def enumeratePixels (WIDTH HEIGHT : Nat) : List Pixel :=
  (List.range HEIGHT).flatMap fun y => (List.range WIDTH).map fun x => { x := x, y := y }

/-- The initial histogram, `new int[Mandelbrot::MAX_ITERATIONS + 1]{0}`. -/
def histogramInit : List Nat := List.replicate (MAX_ITERATIONS + 1) 0

/-- The statement `histogram[i] ++`; `none` when `i` is outside the array. -/
def histogramIncrement (histogram : List Nat) (i : Nat) : Option (List Nat) :=
  if h : i < histogram.length then some (histogram.set i (histogram[i] + 1)) else none

/-- Position of the leading binary digit of `n` (0 for `n < 2`); the first
argument bounds the number of halvings. -/
def ilog2 : Nat → Nat → Nat
  | 0, _ => 0
  | fuel + 1, n => if n < 2 then 0 else ilog2 fuel (n / 2) + 1

/-- Binary64 quotient of the integers `a` and `b` (`0 < b`, `a = 0` or `b ≤ a`,
`a / b < 2 ^ 53`), rounded to nearest, ties to even. The result is the pair
`(m, s)` standing for the double `m / 2 ^ s`, where `m` is the 53-bit significand. -/
def doubleDiv (a b : Nat) : Nat × Nat :=
  let s := 52 - ilog2 64 (a / b)
  let n := a * 2 ^ s
  let q := n / b
  let r := n % b
  let m := if 2 * r < b then q else if b < 2 * r then q + 1 else if q % 2 = 0 then q else q + 1
  (m, s)

/-- The `static_cast<std::uint8_t>` of the non-negative double `m / 2 ^ s`: the
fraction is discarded and the integer is reduced modulo 256. -/
def doubleToUInt8 (d : Nat × Nat) : Nat := (d.1 / 2 ^ d.2) % 256

/-- The colour computed by `pixelEval` from `iterations`:
`color = static_cast<uint8_t>(256 * static_cast<double>(iterations) / MAX_ITERATIONS)`,
then `color = color * color * color` (computed in `int`, stored in a byte).
The conversion of `iterations` and the product by 256 are exact in binary64
(the values are integers below `2 ^ 53`), the quotient is the rounded one. -/
def pixelColor (iterations : Nat) : Nat :=
  let color := doubleToUInt8 (doubleDiv (256 * iterations) MAX_ITERATIONS)
  (color * color * color) % 256

/-- The initialiser of `xFractal` in `pixelEval`:
`(x - WIDTH / 2.0 - 0) * (4.5 / HEIGHT)`. -/
def xFractal {D : Type} (ops : FloatOps D) (WIDTH HEIGHT x : Nat) : D :=
  ops.mul
    (ops.sub (ops.sub (ops.ofInt x) (ops.div (ops.ofInt WIDTH) ops.lit2_0)) (ops.ofInt 0))
    (ops.div ops.lit4_5 (ops.ofInt HEIGHT))

/-- The initialiser of `yFractal` in `pixelEval`:
`(y - HEIGHT / 2.0) * (4.5 / HEIGHT)`. -/
def yFractal {D : Type} (ops : FloatOps D) (HEIGHT y : Nat) : D :=
  ops.mul
    (ops.sub (ops.ofInt y) (ops.div (ops.ofInt HEIGHT) ops.lit2_0))
    (ops.div ops.lit4_5 (ops.ofInt HEIGHT))

/-- The value of `iterations` in `pixelEval(x, y)`. -/
def pixelIterations {D : Type} (ops : FloatOps D) (WIDTH HEIGHT x y : Nat) : Nat :=
  getIterations ops (xFractal ops WIDTH HEIGHT x) (yFractal ops HEIGHT y)

/-- The lambda `pixelEval(x, y)` of `main`: the histogram after
`histogram[iterations] ++` and the returned colour. -/
def pixelEval {D : Type} (ops : FloatOps D) (WIDTH HEIGHT : Nat) (histogram : List Nat)
    (x y : Nat) : Option (List Nat × Nat) :=
  let iterations := pixelIterations ops WIDTH HEIGHT x y
  (histogramIncrement histogram iterations).map fun h => (h, pixelColor iterations)

/-- The state shared by the worker threads. -/
structure RenderState where
  bitmap : Bitmap
  histogram : List Nat
deriving DecidableEq, Repr

/-- The state before the threads start: `Bitmap bitmap {WIDTH, HEIGHT}` and the
zeroed histogram. -/
def RenderState.init (WIDTH HEIGHT : Nat) : RenderState :=
  { bitmap := Bitmap.new WIDTH HEIGHT, histogram := histogramInit }

/-- One pass through the body of the loop of `tFunc`, for the element of
`pixels` at index `k`: `color = pixelEval(x, y)` and
`bitmap.setPixel(x, y, color, color, 0)`. -/
def pixelStep {D : Type} (ops : FloatOps D) (WIDTH HEIGHT : Nat) (pixels : List Pixel)
    (st : RenderState) (k : Nat) : Option RenderState :=
  match pixels[k]? with
  | none => none
  | some p =>
    match pixelEval ops WIDTH HEIGHT st.histogram p.x p.y with
    | none => none
    | some (h, color) =>
      match st.bitmap.setPixel p.x p.y color color 0 with
      | none => none
      | some b => some { bitmap := b, histogram := h }

/-- The indices visited by `for (it = pixels.begin() + begin; it != pixels.begin() + end; ++it)`
on a vector of `size` elements: `begin, …, end - 1`. `none` when the iterator
cannot reach `pixels.begin() + end` inside the vector (`end < begin` or
`size < end`). -/
def iteratorIndices (size begin : Nat) (end_ : Int) : Option (List Nat) :=
  if (begin : Int) ≤ end_ ∧ end_ ≤ (size : Int) then
    some (List.range' begin (end_.toNat - begin))
  else none

/-- Executes the per-pixel steps `ks` in the given order. -/
def runSteps {D : Type} (ops : FloatOps D) (WIDTH HEIGHT : Nat) (pixels : List Pixel)
    (ks : List Nat) (st : RenderState) : Option RenderState :=
  ks.foldlM (pixelStep ops WIDTH HEIGHT pixels) st

/-- The lambda `tFunc(begin, end)` of `main`, run to completion from `st`. -/
def tFunc {D : Type} (ops : FloatOps D) (WIDTH HEIGHT : Nat) (pixels : List Pixel)
    (begin : Nat) (end_ : Int) (st : RenderState) : Option RenderState :=
  match iteratorIndices pixels.length begin end_ with
  | none => none
  | some ks => runSteps ops WIDTH HEIGHT pixels ks st

/-- The value `splitSize = pixels.size() / threadCount`. Every statement below has
`threadCount ≥ 1`; the division by zero of `threadCount = 0` is not modelled. -/
def splitSize (WIDTH HEIGHT threadCount : Nat) : Nat :=
  (enumeratePixels WIDTH HEIGHT).length / threadCount

/-- The value `begin = i * splitSize` of the dispatch loop. -/
def taskBegin (WIDTH HEIGHT threadCount i : Nat) : Nat := i * splitSize WIDTH HEIGHT threadCount

/-- The value `end = begin + splitSize - 1` of the dispatch loop. -/
def taskEnd (WIDTH HEIGHT threadCount i : Nat) : Int :=
  (taskBegin WIDTH HEIGHT threadCount i : Int) + (splitSize WIDTH HEIGHT threadCount : Int) - 1

/-- The indices of `pixels` processed by the thread started in round `i` of the
dispatch loop, `std::thread(tFunc, begin, end)`. -/
def taskIndices (WIDTH HEIGHT threadCount i : Nat) : Option (List Nat) :=
  iteratorIndices (enumeratePixels WIDTH HEIGHT).length
    (taskBegin WIDTH HEIGHT threadCount i) (taskEnd WIDTH HEIGHT threadCount i)

/-- The loop `for (it = pixels.begin() + begin; it != pixels.begin() + end; ++it)`
of `tFunc`, run round by round on a vector of `size` elements with the iterator
at index `it`: the indices whose element the body is run for, in order, and
whether the loop ends (`true`) or the iterator leaves the vector (`false`).
In each round the iterator equals `pixels.begin() + end` (the loop ends), or
stands on an element (the body runs and the iterator advances), or stands at
the end of the vector without being equal to `pixels.begin() + end` (the next
dereference is outside the vector). The first argument bounds the number of
rounds; `size + 1 - it` rounds are always enough. -/
def iteratorLoop (size : Nat) (end_ : Int) : Nat → Nat → List Nat × Bool
  | 0, _ => ([], false)
  | fuel + 1, it =>
    if size < it then ([], false)
    else if (it : Int) = end_ then ([], true)
    else if it < size then
      (it :: (iteratorLoop size end_ fuel (it + 1)).1, (iteratorLoop size end_ fuel (it + 1)).2)
    else ([], false)

/-- The run of the loop of the thread started in round `i` of the dispatch
loop: the indices of `pixels` it runs the body for, and whether its loop ends. -/
def taskTrace (WIDTH HEIGHT threadCount i : Nat) : List Nat × Bool :=
  iteratorLoop (enumeratePixels WIDTH HEIGHT).length (taskEnd WIDTH HEIGHT threadCount i)
    ((enumeratePixels WIDTH HEIGHT).length + 1) (taskBegin WIDTH HEIGHT threadCount i)

/-- The per-pixel steps of all threads, thread 0 first: the concatenation of
the threads' index lists. `none` when a thread's loop is undefined. -/
def allSteps (WIDTH HEIGHT threadCount : Nat) : Option (List Nat) :=
  ((List.range threadCount).mapM (taskIndices WIDTH HEIGHT threadCount)).map List.flatten

/-- The dispatch loop and the joins of `main` under the schedule that runs the
threads one after the other, thread 0 first. -/
def render {D : Type} (ops : FloatOps D) (WIDTH HEIGHT threadCount : Nat) : Option RenderState :=
  (List.range threadCount).foldlM
    (fun st i => tFunc ops WIDTH HEIGHT (enumeratePixels WIDTH HEIGHT)
      (taskBegin WIDTH HEIGHT threadCount i) (taskEnd WIDTH HEIGHT threadCount i) st)
    (RenderState.init WIDTH HEIGHT)

/-- The shape every state of a render of a `WIDTH`×`HEIGHT` image has: the
bitmap has these dimensions and a `WIDTH * HEIGHT * 3`-byte array, the histogram has
`MAX_ITERATIONS + 1` entries. -/
def RenderState.WellFormed (WIDTH HEIGHT : Nat) (st : RenderState) : Prop :=
  st.bitmap.m_width = WIDTH ∧ st.bitmap.m_height = HEIGHT ∧
    st.bitmap.m_pPixels.length = WIDTH * HEIGHT * 3 ∧
    st.histogram.length = MAX_ITERATIONS + 1

/-- Byte offset `byte` of the pixel array is stored to by a thread whose index
list is `r`: it is one of the three bytes `setPixel` writes for the pixel at
some index of `r`. -/
def taskWrites (WIDTH HEIGHT : Nat) (r : List Nat) (byte : Nat) : Prop :=
  ∃ k ∈ r, ∃ d, d < 3 ∧
    ((enumeratePixels WIDTH HEIGHT)[k]?).map
      (fun p => (Bitmap.new WIDTH HEIGHT).pixelOffset p.x p.y + d) = some byte

instance (WIDTH HEIGHT : Nat) (r : List Nat) (byte : Nat) :
    Decidable (taskWrites WIDTH HEIGHT r byte) := by
  unfold taskWrites
  infer_instance

instance (WIDTH HEIGHT : Nat) (st : RenderState) : Decidable (st.WellFormed WIDTH HEIGHT) := by
  unfold RenderState.WellFormed
  infer_instance

/-- Integer arithmetic packaged as a `FloatOps`: complex numbers are Gaussian
integers, literals and quotients are truncated to integers and the modulus is
the integer part of the square root of the norm. -/
def intOps : FloatOps Int where
  ofInt := id
  lit2_0 := 2
  lit4_5 := 4
  sub := fun a b => a - b
  mul := fun a b => a * b
  div := fun a b => a / b
  cmul := fun z w => (z.1 * w.1 - z.2 * w.2, z.1 * w.2 + z.2 * w.1)
  cadd := fun z w => (z.1 + w.1, z.2 + w.2)
  cabs := fun z => ((z.1 * z.1 + z.2 * z.2).toNat.sqrt : Int)
  gt := fun a b => decide (b < a)

/-! ## Bitmap encoder -/

theorem sizeofBitmapFileHeader_eq : sizeofBitmapFileHeader = 14 := by decide

theorem sizeofBitmapInfoHeader_eq : sizeofBitmapInfoHeader = 40 := by decide

theorem int32Bytes_natCast (n : Nat) (h : n < 2 ^ 31) :
    int32Bytes (n : Int) =
      [n % 256, n / 256 % 256, n / 65536 % 256, n / 16777216 % 256] := by
  have e : ((n : Int) % 2 ^ 32).toNat = n := by omega
  simp only [int32Bytes, e, leBytes]
  refine congrArg₂ _ rfl (congrArg₂ _ rfl (congrArg₂ _ ?_ (congrArg₂ _ ?_ rfl))) <;> omega

/-- C3. For a bitmap of width `w ≥ 1` and height `h ≥ 1` whose array holds
`w * h * 3` bytes, with `54 + w * h * 3 < 2 ^ 31`, `Bitmap::write` emits exactly
`54 + w * h * 3` bytes: the 14-byte packed file header (`'B'`, `'M'`, file
size `54 + w * h * 3`, reserved 0, data offset 54), the 40-byte info header
(40, `w`, `h`, planes 1, 24 bits per pixel, compression 0, data size 0,
resolutions 2400 and 2400, colours 0 and 0), every integer little-endian, and
then the array unchanged. -/
theorem write_layout (b : Bitmap) (w h : Nat) (hw : 1 ≤ w) (hh : 1 ≤ h)
    (hbw : b.m_width = w) (hbh : b.m_height = h)
    (hlen : b.m_pPixels.length = w * h * 3) (hsize : 54 + w * h * 3 < 2 ^ 31) :
    ∃ bytes, b.write = some bytes ∧ bytes.length = 54 + w * h * 3 ∧
      bytes =
        ([66, 77] ++
          [(54 + w * h * 3) % 256, (54 + w * h * 3) / 256 % 256,
           (54 + w * h * 3) / 65536 % 256, (54 + w * h * 3) / 16777216 % 256] ++
          [0, 0, 0, 0] ++ [54, 0, 0, 0]) ++
        ([40, 0, 0, 0] ++
          [w % 256, w / 256 % 256, w / 65536 % 256, w / 16777216 % 256] ++
          [h % 256, h / 256 % 256, h / 65536 % 256, h / 16777216 % 256] ++
          [1, 0] ++ [24, 0] ++ [0, 0, 0, 0] ++ [0, 0, 0, 0] ++
          [96, 9, 0, 0] ++ [96, 9, 0, 0] ++ [0, 0, 0, 0] ++ [0, 0, 0, 0]) ++
        b.m_pPixels := by
  have hwh : w ≤ w * h := Nat.le_mul_of_pos_right w hh
  have hhw : h ≤ w * h := Nat.le_mul_of_pos_left h hw
  have c : b.m_width * b.m_height * 3 ≤ INT_MAX ∧
      b.m_width * b.m_height * 3 ≤ b.m_pPixels.length := by
    rw [hbw, hbh, hlen]
    exact ⟨by unfold INT_MAX; omega, le_refl _⟩
  have e1 := int32Bytes_natCast (14 + 40 + w * h * 3) (by omega)
  have e2 := int32Bytes_natCast w (by omega)
  have e3 := int32Bytes_natCast h (by omega)
  have e4 : 14 + 40 + w * h * 3 = 54 + w * h * 3 := by omega
  rw [e4] at e1
  have hb : b.write = some
      (([66, 77] ++
          [(54 + w * h * 3) % 256, (54 + w * h * 3) / 256 % 256,
           (54 + w * h * 3) / 65536 % 256, (54 + w * h * 3) / 16777216 % 256] ++
          [0, 0, 0, 0] ++ [54, 0, 0, 0]) ++
        ([40, 0, 0, 0] ++
          [w % 256, w / 256 % 256, w / 65536 % 256, w / 16777216 % 256] ++
          [h % 256, h / 256 % 256, h / 65536 % 256, h / 16777216 % 256] ++
          [1, 0] ++ [24, 0] ++ [0, 0, 0, 0] ++ [0, 0, 0, 0] ++
          [96, 9, 0, 0] ++ [96, 9, 0, 0] ++ [0, 0, 0, 0] ++ [0, 0, 0, 0]) ++
        b.m_pPixels) := by
    unfold Bitmap.write
    simp only [c, and_self, if_true]
    have t : List.take (b.m_width * b.m_height * 3) b.m_pPixels = b.m_pPixels := by
      apply List.take_of_length_le
      rw [hbw, hbh, hlen]
    rw [t, sizeofBitmapFileHeader_eq, sizeofBitmapInfoHeader_eq, hbw, hbh]
    simp only [BitmapFileHeader.toBytes, BitmapInfoHeader.toBytes, BitmapFileHeader.fields,
      BitmapInfoHeader.fields, e4, e1, e2, e3]
    simp [structBytes, layoutFields, structAlign, padTo, int32Bytes, int16Bytes, leBytes]
  refine ⟨_, hb, ?_, rfl⟩
  simp only [List.length_append, List.length_cons, List.length_nil, hlen]

/-- Witness of `write_layout`: a 2×2 bitmap encodes to 66 bytes, data offset 54,
width 2, height 2. -/
theorem write_layout_witness :
    ∃ bytes, (Bitmap.new 2 2).write = some bytes ∧ bytes.length = 54 + 2 * 2 * 3 ∧
      bytes =
        ([66, 77] ++
          [(54 + 2 * 2 * 3) % 256, (54 + 2 * 2 * 3) / 256 % 256,
           (54 + 2 * 2 * 3) / 65536 % 256, (54 + 2 * 2 * 3) / 16777216 % 256] ++
          [0, 0, 0, 0] ++ [54, 0, 0, 0]) ++
        ([40, 0, 0, 0] ++
          [2 % 256, 2 / 256 % 256, 2 / 65536 % 256, 2 / 16777216 % 256] ++
          [2 % 256, 2 / 256 % 256, 2 / 65536 % 256, 2 / 16777216 % 256] ++
          [1, 0] ++ [24, 0] ++ [0, 0, 0, 0] ++ [0, 0, 0, 0] ++
          [96, 9, 0, 0] ++ [96, 9, 0, 0] ++ [0, 0, 0, 0] ++ [0, 0, 0, 0]) ++
        (Bitmap.new 2 2).m_pPixels :=
  write_layout (Bitmap.new 2 2) 2 2 (by decide) (by decide) rfl rfl (by decide) (by decide)

/-! ## Pixel buffer -/

theorem pixelOffset_eq (b : Bitmap) (x y : Nat) :
    b.pixelOffset x y = (y * b.m_width + x) * 3 := by
  unfold Bitmap.pixelOffset
  ring

theorem pixelOffset_lt (b : Bitmap) (x y h : Nat) (hx : x < b.m_width) (hy : y < h) :
    b.pixelOffset x y + 2 < b.m_width * h * 3 := by
  rw [pixelOffset_eq]
  have h1 : (y + 1) * b.m_width ≤ h * b.m_width := Nat.mul_le_mul_right _ hy
  have h2 : (y + 1) * b.m_width = y * b.m_width + b.m_width := by ring
  have h3 : b.m_width * h = h * b.m_width := Nat.mul_comm _ _
  omega

/-- What a store of one pixel does to an array that is long enough. -/
theorem setPixel_spec (b : Bitmap) (x y red green blue : Nat)
    (hoff : b.pixelOffset x y + 2 < b.m_pPixels.length) :
    ∃ b1, b.setPixel x y red green blue = some b1 ∧
      b1.m_width = b.m_width ∧ b1.m_height = b.m_height ∧
      b1.m_pPixels.length = b.m_pPixels.length ∧
      b1.m_pPixels[b.pixelOffset x y]? = some blue ∧
      b1.m_pPixels[b.pixelOffset x y + 1]? = some green ∧
      b1.m_pPixels[b.pixelOffset x y + 2]? = some red ∧
      ∀ k, k ≠ b.pixelOffset x y → k ≠ b.pixelOffset x y + 1 → k ≠ b.pixelOffset x y + 2 →
        b1.m_pPixels[k]? = b.m_pPixels[k]? := by
  refine ⟨{ b with m_pPixels := ((b.m_pPixels.set (b.pixelOffset x y) blue).set
      (b.pixelOffset x y + 1) green).set (b.pixelOffset x y + 2) red }, ?_, rfl, rfl,
    by simp, ?_, ?_, ?_, ?_⟩
  · simp only [Bitmap.setPixel, hoff, if_true]
  · simp only [List.getElem?_set]
    simp
    omega
  · simp only [List.getElem?_set]
    simp
    omega
  · simp only [List.getElem?_set]
    simp
    omega
  · intro k h0 h1 h2
    simp only [List.getElem?_set]
    simp [Ne.symm h0, Ne.symm h1, Ne.symm h2]

/-- C4. On a bitmap constructed with `(width, height)`, whose array is
`width * height * 3` zero bytes, `setPixel(x, y, red, green, blue)` with
`x < width` and `y < height` stores blue at offset `(y * width + x) * 3`,
green at the next offset and red at the one after; the three offsets are
inside the array and every other byte keeps its value. -/
theorem setPixel_frame (width height x y red green blue : Nat)
    (hx : x < width) (hy : y < height) :
    (Bitmap.new width height).m_pPixels = List.replicate (width * height * 3) 0 ∧
    ∃ b1, (Bitmap.new width height).setPixel x y red green blue = some b1 ∧
      (y * width + x) * 3 + 2 < (Bitmap.new width height).m_pPixels.length ∧
      b1.m_pPixels.length = width * height * 3 ∧
      b1.m_pPixels[(y * width + x) * 3]? = some blue ∧
      b1.m_pPixels[(y * width + x) * 3 + 1]? = some green ∧
      b1.m_pPixels[(y * width + x) * 3 + 2]? = some red ∧
      ∀ k, k ≠ (y * width + x) * 3 → k ≠ (y * width + x) * 3 + 1 →
        k ≠ (y * width + x) * 3 + 2 →
        b1.m_pPixels[k]? = (Bitmap.new width height).m_pPixels[k]? := by
  have hlen : (Bitmap.new width height).m_pPixels.length = width * height * 3 := by
    simp [Bitmap.new]
  have hoff := pixelOffset_lt (Bitmap.new width height) x y height hx hy
  have e := pixelOffset_eq (Bitmap.new width height) x y
  have hw : (Bitmap.new width height).m_width = width := rfl
  rw [hw] at hoff e
  obtain ⟨b1, hs, -, -, hl, h0, h1, h2, hk⟩ :=
    setPixel_spec (Bitmap.new width height) x y red green blue (by rw [hlen]; exact hoff)
  rw [e] at h0 h1 h2 hk
  exact ⟨rfl, b1, hs, by rw [hlen, ← e]; exact hoff, by rw [hl, hlen], h0, h1, h2, hk⟩

/-- Witness of `setPixel_frame`: pixel (1, 2) of a 4×3 bitmap. -/
theorem setPixel_frame_witness :
    (Bitmap.new 4 3).m_pPixels = List.replicate (4 * 3 * 3) 0 ∧
    ∃ b1, (Bitmap.new 4 3).setPixel 1 2 255 128 7 = some b1 ∧
      (2 * 4 + 1) * 3 + 2 < (Bitmap.new 4 3).m_pPixels.length ∧
      b1.m_pPixels.length = 4 * 3 * 3 ∧
      b1.m_pPixels[(2 * 4 + 1) * 3]? = some 7 ∧
      b1.m_pPixels[(2 * 4 + 1) * 3 + 1]? = some 128 ∧
      b1.m_pPixels[(2 * 4 + 1) * 3 + 2]? = some 255 ∧
      ∀ k, k ≠ (2 * 4 + 1) * 3 → k ≠ (2 * 4 + 1) * 3 + 1 →
        k ≠ (2 * 4 + 1) * 3 + 2 →
        b1.m_pPixels[k]? = (Bitmap.new 4 3).m_pPixels[k]? :=
  setPixel_frame 4 3 1 2 255 128 7 (by decide) (by decide)

/-! ## Escape loop -/

theorem getIterationsLoop_bounds {D : Type} (ops : FloatOps D) (c : D × D) :
    ∀ (remaining : Nat) (z : D × D) (iterations : Nat),
      iterations ≤ getIterationsLoop ops c remaining z iterations ∧
      getIterationsLoop ops c remaining z iterations ≤ iterations + remaining := by
  intro remaining
  induction remaining with
  | zero => intro z iterations; simp [getIterationsLoop]
  | succ n ih =>
    intro z iterations
    simp only [getIterationsLoop]
    split
    · omega
    · have := ih (ops.cadd (ops.cmul z z) c) (iterations + 1)
      omega

theorem getIterations_le {D : Type} (ops : FloatOps D) (x y : D) :
    getIterations ops x y ≤ MAX_ITERATIONS := by
  have := (getIterationsLoop_bounds ops (x, y) MAX_ITERATIONS (ops.ofInt 0, ops.ofInt 0) 0).2
  unfold getIterations
  omega

theorem sum_set_add (l : List Nat) :
    ∀ (i v : Nat) (h : i < l.length), (l.set i v).sum + l[i] = l.sum + v := by
  induction l with
  | nil => intro i v h; simp at h
  | cons a t ih =>
    intro i v h
    cases i with
    | zero => simp; omega
    | succ j =>
      have := ih j v (by simpa using h)
      simp only [List.set_cons_succ, List.sum_cons, List.getElem_cons_succ]
      omega

theorem histogramIncrement_spec (histogram : List Nat) (i : Nat) (h : i < histogram.length) :
    ∃ h1, histogramIncrement histogram i = some h1 ∧ h1.length = histogram.length ∧
      h1.sum = histogram.sum + 1 := by
  refine ⟨histogram.set i (histogram[i] + 1), by simp only [histogramIncrement, h, dite_true],
    by simp, ?_⟩
  have := sum_set_add histogram i (histogram[i] + 1) h
  omega

theorem pixelIterations_le {D : Type} (ops : FloatOps D) (WIDTH HEIGHT x y : Nat) :
    pixelIterations ops WIDTH HEIGHT x y ≤ MAX_ITERATIONS :=
  getIterations_le ops _ _

theorem pixelEval_spec {D : Type} (ops : FloatOps D) (WIDTH HEIGHT : Nat)
    (histogram : List Nat) (x y : Nat) (hlen : histogram.length = MAX_ITERATIONS + 1) :
    ∃ h1, pixelEval ops WIDTH HEIGHT histogram x y =
        some (h1, pixelColor (pixelIterations ops WIDTH HEIGHT x y)) ∧
      histogramIncrement histogram (pixelIterations ops WIDTH HEIGHT x y) = some h1 ∧
      h1.length = MAX_ITERATIONS + 1 ∧ h1.sum = histogram.sum + 1 := by
  have hb := pixelIterations_le ops WIDTH HEIGHT x y
  obtain ⟨h1, e1, l1, s1⟩ := histogramIncrement_spec histogram
    (pixelIterations ops WIDTH HEIGHT x y) (by rw [hlen]; exact Nat.lt_succ_of_le hb)
  refine ⟨h1, ?_, e1, by rw [l1, hlen], s1⟩
  simp only [pixelEval, e1, Option.map_some']

/-- C5. For every input and every implementation of the floating-point
operations (so whatever the magnitude test answers at each step),
`getIterations` returns a value `n` with `0 ≤ n ≤ MAX_ITERATIONS = 100`; the
index `pixelEval` uses is therefore below the length 101 of the histogram,
and the increment `histogram[iterations] ++` is an in-bounds access on every
101-entry histogram. -/
theorem getIterations_range {D : Type} (ops : FloatOps D) (x y : D) :
    0 ≤ getIterations ops x y ∧ getIterations ops x y ≤ MAX_ITERATIONS ∧
    MAX_ITERATIONS = 100 ∧ histogramInit.length = 101 ∧
    getIterations ops x y < histogramInit.length ∧
    (∀ histogram : List Nat, histogram.length = 101 →
      (histogramIncrement histogram (getIterations ops x y)).isSome = true) ∧
    (∀ (WIDTH HEIGHT px py : Nat) (histogram : List Nat), histogram.length = 101 →
      (pixelEval ops WIDTH HEIGHT histogram px py).isSome = true) := by
  have hb := getIterations_le ops x y
  have hm : MAX_ITERATIONS = 100 := rfl
  have hl : histogramInit.length = 101 := by simp [histogramInit, MAX_ITERATIONS]
  refine ⟨Nat.zero_le _, hb, hm, hl, by omega, ?_, ?_⟩
  · intro histogram hlen
    obtain ⟨h1, e1, -⟩ := histogramIncrement_spec histogram (getIterations ops x y) (by omega)
    simp [e1]
  · intro WIDTH HEIGHT px py histogram hlen
    obtain ⟨h1, e, -⟩ := pixelEval_spec ops WIDTH HEIGHT histogram px py (by rw [hlen, hm])
    simp [e]

theorem getIterationsLoop_fixed {D : Type} (ops : FloatOps D) (c z : D × D)
    (hz : ops.cadd (ops.cmul z z) c = z)
    (habs : ops.gt (ops.cabs z) (ops.ofInt 2) = false) :
    ∀ (remaining iterations : Nat),
      getIterationsLoop ops c remaining z iterations = iterations + remaining := by
  intro remaining
  induction remaining with
  | zero => intro iterations; simp [getIterationsLoop]
  | succ n ih =>
    intro iterations
    simp only [getIterationsLoop, hz, habs, Bool.false_eq_true, if_false, ih]
    omega

/-- C6. `getIterations(0, 0)` returns `MAX_ITERATIONS = 100` under every
implementation of the floating-point operations in which `0 * 0 = 0` and
`0 + 0 = 0` on complex numbers and `|0| > 2` is false: every iterate
`z * z + c` is 0, the test never succeeds and the loop runs to the cap. -/
theorem getIterations_origin {D : Type} (ops : FloatOps D)
    (hmul : ops.cmul (ops.ofInt 0, ops.ofInt 0) (ops.ofInt 0, ops.ofInt 0) =
      (ops.ofInt 0, ops.ofInt 0))
    (hadd : ops.cadd (ops.ofInt 0, ops.ofInt 0) (ops.ofInt 0, ops.ofInt 0) =
      (ops.ofInt 0, ops.ofInt 0))
    (habs : ops.gt (ops.cabs (ops.ofInt 0, ops.ofInt 0)) (ops.ofInt 2) = false) :
    getIterations ops (ops.ofInt 0) (ops.ofInt 0) = MAX_ITERATIONS ∧ MAX_ITERATIONS = 100 := by
  refine ⟨?_, rfl⟩
  unfold getIterations
  rw [getIterationsLoop_fixed ops _ _ (by rw [hmul, hadd]) habs]
  omega

/-- Witness of `getIterations_origin`: integer arithmetic. -/
theorem getIterations_origin_witness :
    getIterations intOps (intOps.ofInt 0) (intOps.ofInt 0) = MAX_ITERATIONS ∧
      MAX_ITERATIONS = 100 :=
  getIterations_origin intOps (by simp [intOps]) (by simp [intOps]) (by simp [intOps])

/-! ## Colour -/

theorem pixelColor_table :
    ∀ n < 101, pixelColor n = ((256 * n / 100) ^ 3) % 256 := by decide

/-- The enumeration of the pixel grid. -/
theorem enumeratePixels_length (WIDTH HEIGHT : Nat) :
    (enumeratePixels WIDTH HEIGHT).length = HEIGHT * WIDTH := by
  unfold enumeratePixels
  induction HEIGHT with
  | zero => simp
  | succ n ih =>
    rw [List.range_succ, List.flatMap_append, List.length_append, ih]
    simp [List.flatMap_singleton]
    ring

theorem enumeratePixels_getElem? (WIDTH HEIGHT k : Nat) (hk : k < HEIGHT * WIDTH) :
    (enumeratePixels WIDTH HEIGHT)[k]? = some { x := k % WIDTH, y := k / WIDTH } := by
  induction HEIGHT with
  | zero => simp at hk
  | succ n ih =>
    have hl := enumeratePixels_length WIDTH n
    have hW : 0 < WIDTH := by
      rcases Nat.eq_zero_or_pos WIDTH with h | h
      · subst h; simp at hk
      · exact h
    have e : enumeratePixels WIDTH (n + 1) =
        enumeratePixels WIDTH n ++ (List.range WIDTH).map fun x => { x := x, y := n } := by
      unfold enumeratePixels
      rw [List.range_succ, List.flatMap_append, List.flatMap_singleton]
    rw [e]
    by_cases hlt : k < n * WIDTH
    · rw [List.getElem?_append_left (by rw [hl]; exact hlt)]
      exact ih hlt
    · have hge : n * WIDTH ≤ k := Nat.le_of_not_lt hlt
      have hk2 : k - n * WIDTH < WIDTH := by
        have : (n + 1) * WIDTH = n * WIDTH + WIDTH := by ring
        omega
      rw [List.getElem?_append_right (by rw [hl]; exact hge), hl]
      rw [List.getElem?_map, List.getElem?_range hk2]
      have hd : k / WIDTH = n := by
        apply Nat.div_eq_of_lt_le
        · exact hge
        · have : (n + 1) * WIDTH = n * WIDTH + WIDTH := by ring
          omega
      have hm : k % WIDTH = k - n * WIDTH := by
        have := Nat.div_add_mod k WIDTH
        rw [hd, Nat.mul_comm] at this
        omega
      simp [hd, hm]

/-! ## Work partition -/

theorem splitSize_eq (WIDTH HEIGHT threadCount : Nat) :
    splitSize WIDTH HEIGHT threadCount = HEIGHT * WIDTH / threadCount := by
  unfold splitSize
  rw [enumeratePixels_length]

theorem splitSize_mul_le (WIDTH HEIGHT threadCount : Nat) :
    threadCount * splitSize WIDTH HEIGHT threadCount ≤ HEIGHT * WIDTH := by
  rw [splitSize_eq]
  exact Nat.mul_div_le _ _

theorem splitSize_pos (WIDTH HEIGHT threadCount : Nat) (hT : 1 ≤ threadCount)
    (hle : threadCount ≤ HEIGHT * WIDTH) : 1 ≤ splitSize WIDTH HEIGHT threadCount := by
  rw [splitSize_eq]
  exact (Nat.one_le_div_iff (by omega)).2 hle

/-- The thread of round `i` visits `splitSize - 1` indices starting at
`i * splitSize`, whenever `splitSize ≥ 1`. -/
theorem taskIndices_eq (WIDTH HEIGHT threadCount i : Nat) (hi : i < threadCount)
    (hs : 1 ≤ splitSize WIDTH HEIGHT threadCount) :
    taskIndices WIDTH HEIGHT threadCount i =
      some (List.range' (i * splitSize WIDTH HEIGHT threadCount)
        (splitSize WIDTH HEIGHT threadCount - 1)) := by
  have hle := splitSize_mul_le WIDTH HEIGHT threadCount
  have h1 : (i + 1) * splitSize WIDTH HEIGHT threadCount ≤
      threadCount * splitSize WIDTH HEIGHT threadCount := Nat.mul_le_mul_right _ hi
  have h2 : (i + 1) * splitSize WIDTH HEIGHT threadCount =
      i * splitSize WIDTH HEIGHT threadCount + splitSize WIDTH HEIGHT threadCount := by ring
  unfold taskIndices iteratorIndices taskEnd taskBegin
  rw [enumeratePixels_length]
  rw [if_pos (by constructor <;> omega)]
  congr 2
  omega

/-- With `splitSize = 0` no thread has a defined index range. -/
theorem taskIndices_none (WIDTH HEIGHT threadCount i : Nat)
    (hs : splitSize WIDTH HEIGHT threadCount = 0) :
    taskIndices WIDTH HEIGHT threadCount i = none := by
  unfold taskIndices iteratorIndices taskEnd taskBegin
  rw [hs]
  rw [if_neg (by omega)]

theorem taskIndices_mem (WIDTH HEIGHT threadCount i : Nat) (r : List Nat)
    (hi : i < threadCount) (hr : taskIndices WIDTH HEIGHT threadCount i = some r) (k : Nat) :
    k ∈ r ↔ i * splitSize WIDTH HEIGHT threadCount ≤ k ∧
      k + 1 < i * splitSize WIDTH HEIGHT threadCount + splitSize WIDTH HEIGHT threadCount := by
  rcases Nat.eq_zero_or_pos (splitSize WIDTH HEIGHT threadCount) with h0 | hpos
  · rw [taskIndices_none _ _ _ _ h0] at hr
    cases hr
  · rw [taskIndices_eq _ _ _ _ hi hpos] at hr
    cases hr
    rw [List.mem_range'_1]
    omega

theorem taskIndices_lt (WIDTH HEIGHT threadCount i : Nat) (r : List Nat)
    (hi : i < threadCount) (hr : taskIndices WIDTH HEIGHT threadCount i = some r) (k : Nat)
    (hk : k ∈ r) : k < HEIGHT * WIDTH := by
  have hm := (taskIndices_mem _ _ _ _ r hi hr k).1 hk
  have hle := splitSize_mul_le WIDTH HEIGHT threadCount
  have h1 : (i + 1) * splitSize WIDTH HEIGHT threadCount ≤
      threadCount * splitSize WIDTH HEIGHT threadCount := Nat.mul_le_mul_right _ hi
  have h2 : (i + 1) * splitSize WIDTH HEIGHT threadCount =
      i * splitSize WIDTH HEIGHT threadCount + splitSize WIDTH HEIGHT threadCount := by ring
  omega

/-- An index lies in the range of at most one thread. -/
theorem taskIndices_disjoint (WIDTH HEIGHT threadCount i j : Nat) (ri rj : List Nat)
    (hi : i < threadCount) (hj : j < threadCount)
    (hri : taskIndices WIDTH HEIGHT threadCount i = some ri)
    (hrj : taskIndices WIDTH HEIGHT threadCount j = some rj)
    (k : Nat) (hki : k ∈ ri) (hkj : k ∈ rj) : i = j := by
  have a := (taskIndices_mem _ _ _ _ ri hi hri k).1 hki
  have b := (taskIndices_mem _ _ _ _ rj hj hrj k).1 hkj
  rcases Nat.lt_trichotomy i j with h | h | h
  · exfalso
    have h1 : (i + 1) * splitSize WIDTH HEIGHT threadCount ≤
        j * splitSize WIDTH HEIGHT threadCount := Nat.mul_le_mul_right _ h
    have h2 : (i + 1) * splitSize WIDTH HEIGHT threadCount =
        i * splitSize WIDTH HEIGHT threadCount + splitSize WIDTH HEIGHT threadCount := by ring
    omega
  · exact h
  · exfalso
    have h1 : (j + 1) * splitSize WIDTH HEIGHT threadCount ≤
        i * splitSize WIDTH HEIGHT threadCount := Nat.mul_le_mul_right _ h
    have h2 : (j + 1) * splitSize WIDTH HEIGHT threadCount =
        j * splitSize WIDTH HEIGHT threadCount + splitSize WIDTH HEIGHT threadCount := by ring
    omega

/-- The last index of every chunk is in the range of no thread. -/
theorem chunk_last_not_mem (WIDTH HEIGHT threadCount i j : Nat) (r : List Nat)
    (hj : j < threadCount) (hs : 1 ≤ splitSize WIDTH HEIGHT threadCount)
    (hr : taskIndices WIDTH HEIGHT threadCount j = some r) :
    i * splitSize WIDTH HEIGHT threadCount + splitSize WIDTH HEIGHT threadCount - 1 ∉ r := by
  intro hk
  have b := (taskIndices_mem _ _ _ _ r hj hr _).1 hk
  rcases Nat.lt_trichotomy i j with h | h | h
  · have h1 : (i + 1) * splitSize WIDTH HEIGHT threadCount ≤
        j * splitSize WIDTH HEIGHT threadCount := Nat.mul_le_mul_right _ h
    have h2 : (i + 1) * splitSize WIDTH HEIGHT threadCount =
        i * splitSize WIDTH HEIGHT threadCount + splitSize WIDTH HEIGHT threadCount := by ring
    omega
  · subst h
    omega
  · have h1 : (j + 1) * splitSize WIDTH HEIGHT threadCount ≤
        i * splitSize WIDTH HEIGHT threadCount := Nat.mul_le_mul_right _ h
    have h2 : (j + 1) * splitSize WIDTH HEIGHT threadCount =
        j * splitSize WIDTH HEIGHT threadCount + splitSize WIDTH HEIGHT threadCount := by ring
    omega

/-! ## Per-pixel steps -/

theorem init_wellFormed (WIDTH HEIGHT : Nat) :
    (RenderState.init WIDTH HEIGHT).WellFormed WIDTH HEIGHT := by
  refine ⟨rfl, rfl, ?_, ?_⟩
  · simp [RenderState.init, Bitmap.new]
  · simp [RenderState.init, histogramInit]

theorem setPixel_getElem? (b b1 : Bitmap) (x y red green blue : Nat)
    (hs : b.setPixel x y red green blue = some b1) (n : Nat) :
    b1.m_pPixels[n]? =
      if n = b.pixelOffset x y then some blue
      else if n = b.pixelOffset x y + 1 then some green
      else if n = b.pixelOffset x y + 2 then some red
      else b.m_pPixels[n]? := by
  by_cases hoff : b.pixelOffset x y + 2 < b.m_pPixels.length
  · obtain ⟨b2, e, -, -, -, h0, h1, h2, hk⟩ := setPixel_spec b x y red green blue hoff
    rw [hs] at e
    cases e
    by_cases c0 : n = b.pixelOffset x y
    · rw [if_pos c0, c0, h0]
    · by_cases c1 : n = b.pixelOffset x y + 1
      · rw [if_neg c0, if_pos c1, c1, h1]
      · by_cases c2 : n = b.pixelOffset x y + 2
        · rw [if_neg c0, if_neg c1, if_pos c2, c2, h2]
        · rw [if_neg c0, if_neg c1, if_neg c2, hk n c0 c1 c2]
  · simp only [Bitmap.setPixel, hoff, if_false] at hs
    cases hs

theorem histogramIncrement_getD (h h1 : List Nat) (i : Nat)
    (hs : histogramIncrement h i = some h1) (n : Nat) :
    h1.getD n 0 = h.getD n 0 + (if n = i then 1 else 0) := by
  unfold histogramIncrement at hs
  by_cases hi : i < h.length
  · simp only [hi, dite_true, Option.some.injEq] at hs
    subst hs
    simp only [List.getD_eq_getElem?_getD, List.getElem?_set]
    by_cases c : i = n
    · subst c
      simp [hi]
    · have c2 : ¬ n = i := fun e => c e.symm
      simp [c, c2]
  · simp only [hi, dite_false] at hs
    cases hs

theorem list_eq_of_getD (l1 l2 : List Nat) (hl : l1.length = l2.length)
    (h : ∀ n, l1.getD n 0 = l2.getD n 0) : l1 = l2 := by
  apply List.ext_getElem hl
  intro n h1 h2
  have := h n
  rw [List.getD_eq_getElem _ _ h1, List.getD_eq_getElem _ _ h2] at this
  exact this

/-- One step on a well-formed state, for an index inside the pixel vector. -/
theorem pixelStep_spec {D : Type} (ops : FloatOps D) (WIDTH HEIGHT : Nat) (st : RenderState)
    (k : Nat) (hst : st.WellFormed WIDTH HEIGHT) (hk : k < HEIGHT * WIDTH) :
    ∃ st1, pixelStep ops WIDTH HEIGHT (enumeratePixels WIDTH HEIGHT) st k = some st1 ∧
      st1.WellFormed WIDTH HEIGHT ∧
      st1.histogram.sum = st.histogram.sum + 1 ∧
      histogramIncrement st.histogram
        (pixelIterations ops WIDTH HEIGHT (k % WIDTH) (k / WIDTH)) = some st1.histogram ∧
      st.bitmap.setPixel (k % WIDTH) (k / WIDTH)
        (pixelColor (pixelIterations ops WIDTH HEIGHT (k % WIDTH) (k / WIDTH)))
        (pixelColor (pixelIterations ops WIDTH HEIGHT (k % WIDTH) (k / WIDTH))) 0 =
        some st1.bitmap := by
  obtain ⟨hw, hht, hl, hh⟩ := hst
  have hW : 0 < WIDTH := by
    rcases Nat.eq_zero_or_pos WIDTH with h | h
    · subst h; simp at hk
    · exact h
  have hx : k % WIDTH < st.bitmap.m_width := by rw [hw]; exact Nat.mod_lt _ hW
  have hy : k / WIDTH < HEIGHT := (Nat.div_lt_iff_lt_mul hW).2 hk
  have hoff := pixelOffset_lt st.bitmap (k % WIDTH) (k / WIDTH) HEIGHT hx hy
  rw [hw, ← hl] at hoff
  obtain ⟨h1, e1, e2, l1, s1⟩ :=
    pixelEval_spec ops WIDTH HEIGHT st.histogram (k % WIDTH) (k / WIDTH) hh
  obtain ⟨b1, eb, w1, ht1, len1, -⟩ := setPixel_spec st.bitmap (k % WIDTH) (k / WIDTH)
    (pixelColor (pixelIterations ops WIDTH HEIGHT (k % WIDTH) (k / WIDTH)))
    (pixelColor (pixelIterations ops WIDTH HEIGHT (k % WIDTH) (k / WIDTH))) 0 hoff
  refine ⟨{ bitmap := b1, histogram := h1 }, ?_,
    ⟨by rw [w1, hw], by rw [ht1, hht], by rw [len1, hl], l1⟩, s1, e2, eb⟩
  simp only [pixelStep, enumeratePixels_getElem? WIDTH HEIGHT k hk, e1, eb]

/-- Running steps whose indices are inside the pixel vector succeeds, keeps the
state well formed and adds one histogram count per step. -/
theorem runSteps_spec {D : Type} (ops : FloatOps D) (WIDTH HEIGHT : Nat) (ks : List Nat) :
    ∀ st : RenderState, st.WellFormed WIDTH HEIGHT → (∀ k ∈ ks, k < HEIGHT * WIDTH) →
      ∃ st1, runSteps ops WIDTH HEIGHT (enumeratePixels WIDTH HEIGHT) ks st = some st1 ∧
        st1.WellFormed WIDTH HEIGHT ∧ st1.histogram.sum = st.histogram.sum + ks.length := by
  induction ks with
  | nil =>
    intro st hst _
    exact ⟨st, rfl, hst, by simp⟩
  | cons k t ih =>
    intro st hst hk
    obtain ⟨st1, e1, wf1, s1, -⟩ :=
      pixelStep_spec ops WIDTH HEIGHT st k hst (hk k (List.mem_cons_self _ _))
    obtain ⟨st2, e2, wf2, s2⟩ := ih st1 wf1 (fun j hj => hk j (List.mem_cons_of_mem _ hj))
    refine ⟨st2, ?_, wf2, ?_⟩
    · unfold runSteps at e2 ⊢
      rw [List.foldlM_cons, e1]
      exact e2
    · rw [s2, s1, List.length_cons]
      omega

theorem index_ne_offset (WIDTH a b : Nat) (hab : a ≠ b) :
    (b / WIDTH * WIDTH + b % WIDTH) * 3 + 2 < (a / WIDTH * WIDTH + a % WIDTH) * 3 ∨
      (a / WIDTH * WIDTH + a % WIDTH) * 3 + 2 < (b / WIDTH * WIDTH + b % WIDTH) * 3 := by
  have ha := Nat.div_add_mod a WIDTH
  have hb := Nat.div_add_mod b WIDTH
  rw [Nat.mul_comm] at ha hb
  omega

/-- Two steps for indices of the pixel vector can be swapped. -/
theorem pixelStep_comm {D : Type} (ops : FloatOps D) (WIDTH HEIGHT : Nat) (st : RenderState)
    (a b : Nat) (hst : st.WellFormed WIDTH HEIGHT)
    (ha : a < HEIGHT * WIDTH) (hb : b < HEIGHT * WIDTH) :
    (pixelStep ops WIDTH HEIGHT (enumeratePixels WIDTH HEIGHT) st a).bind
        (fun s => pixelStep ops WIDTH HEIGHT (enumeratePixels WIDTH HEIGHT) s b) =
      (pixelStep ops WIDTH HEIGHT (enumeratePixels WIDTH HEIGHT) st b).bind
        (fun s => pixelStep ops WIDTH HEIGHT (enumeratePixels WIDTH HEIGHT) s a) := by
  by_cases hab : a = b
  · subst hab
    rfl
  obtain ⟨sa, ea, wa, -, ha1, ha2⟩ := pixelStep_spec ops WIDTH HEIGHT st a hst ha
  obtain ⟨sab, eab, wab, -, hab1, hab2⟩ := pixelStep_spec ops WIDTH HEIGHT sa b wa hb
  obtain ⟨sb, eb, wb, -, hb1, hb2⟩ := pixelStep_spec ops WIDTH HEIGHT st b hst hb
  obtain ⟨sba, eba, wba, -, hba1, hba2⟩ := pixelStep_spec ops WIDTH HEIGHT sb a wb ha
  rw [ea, eb, Option.some_bind, Option.some_bind, eab, eba]
  have hhist : sab.histogram = sba.histogram := by
    apply list_eq_of_getD
    · rw [wab.2.2.2, wba.2.2.2]
    · intro n
      rw [histogramIncrement_getD _ _ _ hab1 n, histogramIncrement_getD _ _ _ ha1 n,
        histogramIncrement_getD _ _ _ hba1 n, histogramIncrement_getD _ _ _ hb1 n]
      omega
  have hoff := index_ne_offset WIDTH a b hab
  have hpix : sab.bitmap.m_pPixels = sba.bitmap.m_pPixels := by
    apply List.ext_getElem?
    intro n
    rw [setPixel_getElem? _ _ _ _ _ _ _ hab2 n, setPixel_getElem? _ _ _ _ _ _ _ ha2 n,
      setPixel_getElem? _ _ _ _ _ _ _ hba2 n, setPixel_getElem? _ _ _ _ _ _ _ hb2 n]
    simp only [pixelOffset_eq, wa.1, wb.1, hst.1]
    split_ifs <;> first | rfl | omega
  have hw := wab.1.trans wba.1.symm
  have hh := wab.2.1.trans wba.2.1.symm
  obtain ⟨⟨w1, h1, p1⟩, hist1⟩ := sab
  obtain ⟨⟨w2, h2, p2⟩, hist2⟩ := sba
  simp only at hhist hpix hw hh
  subst hhist hpix hw hh
  rfl

/-- Running the same steps in another order gives the same result. -/
theorem runSteps_perm {D : Type} (ops : FloatOps D) (WIDTH HEIGHT : Nat) (l1 l2 : List Nat)
    (hp : l1.Perm l2) :
    (∀ k ∈ l1, k < HEIGHT * WIDTH) → ∀ st : RenderState, st.WellFormed WIDTH HEIGHT →
      runSteps ops WIDTH HEIGHT (enumeratePixels WIDTH HEIGHT) l1 st =
        runSteps ops WIDTH HEIGHT (enumeratePixels WIDTH HEIGHT) l2 st := by
  induction hp with
  | nil => intro _ st _; rfl
  | cons x _ ih =>
    intro hk st hst
    obtain ⟨st1, e1, wf1, -⟩ :=
      pixelStep_spec ops WIDTH HEIGHT st x hst (hk x (List.mem_cons_self _ _))
    unfold runSteps at ih ⊢
    rw [List.foldlM_cons, List.foldlM_cons, e1]
    exact ih (fun j hj => hk j (List.mem_cons_of_mem _ hj)) st1 wf1
  | swap x y l =>
    intro hk st hst
    have hy : y < HEIGHT * WIDTH := hk y (List.mem_cons_self _ _)
    have hx : x < HEIGHT * WIDTH := hk x (List.mem_cons_of_mem _ (List.mem_cons_self _ _))
    have c := pixelStep_comm ops WIDTH HEIGHT st y x hst hy hx
    unfold runSteps
    obtain ⟨sy, ey, wy, -⟩ := pixelStep_spec ops WIDTH HEIGHT st y hst hy
    obtain ⟨sx, ex, wx, -⟩ := pixelStep_spec ops WIDTH HEIGHT st x hst hx
    rw [ey, ex, Option.some_bind, Option.some_bind] at c
    rw [List.foldlM_cons, List.foldlM_cons, ey, ex]
    simp only [Option.some_bind, Option.bind_eq_bind, List.foldlM_cons]
    rw [c]
  | trans h12 _ ih1 ih2 =>
    intro hk st hst
    rw [ih1 hk st hst]
    exact ih2 (fun j hj => hk j (h12.symm.subset hj)) st hst

theorem runSteps_append {D : Type} (ops : FloatOps D) (WIDTH HEIGHT : Nat)
    (pixels : List Pixel) (l1 l2 : List Nat) (st : RenderState) :
    runSteps ops WIDTH HEIGHT pixels (l1 ++ l2) st =
      (runSteps ops WIDTH HEIGHT pixels l1 st).bind (runSteps ops WIDTH HEIGHT pixels l2) := by
  unfold runSteps
  rw [List.foldlM_append]
  rfl

/-! ## The threads together -/

theorem mapM_some {α β : Type} (f : α → Option β) (g : α → β) (l : List α)
    (h : ∀ a ∈ l, f a = some (g a)) : l.mapM f = some (l.map g) := by
  induction l with
  | nil => rfl
  | cons a t ih =>
    rw [List.mapM_cons, h a (List.mem_cons_self _ _),
      ih (fun b hb => h b (List.mem_cons_of_mem _ hb))]
    rfl

theorem mapM_none {α β : Type} (f : α → Option β) (l : List α) (a : α) (ha : a ∈ l)
    (h : f a = none) : l.mapM f = none := by
  induction l with
  | nil => cases ha
  | cons b t ih =>
    rw [List.mapM_cons]
    rcases List.mem_cons.1 ha with e | e
    · subst e
      rw [h]
      rfl
    · rw [ih e]
      cases f b <;> rfl

/-- The index list of all threads when `splitSize ≥ 1`. -/
theorem allSteps_eq (WIDTH HEIGHT threadCount : Nat)
    (hs : 1 ≤ splitSize WIDTH HEIGHT threadCount) :
    allSteps WIDTH HEIGHT threadCount =
      some (((List.range threadCount).map fun i =>
        List.range' (i * splitSize WIDTH HEIGHT threadCount)
          (splitSize WIDTH HEIGHT threadCount - 1)).flatten) := by
  unfold allSteps
  rw [mapM_some _ (fun i => List.range' (i * splitSize WIDTH HEIGHT threadCount)
    (splitSize WIDTH HEIGHT threadCount - 1))]
  · rfl
  · intro i hi
    exact taskIndices_eq _ _ _ i (List.mem_range.1 hi) hs

/-- With at least one thread, the combined step list is defined exactly when
`splitSize ≥ 1`, that is when there are no more threads than pixels. -/
theorem allSteps_isSome_iff (WIDTH HEIGHT threadCount : Nat) (hT : 1 ≤ threadCount) :
    (allSteps WIDTH HEIGHT threadCount).isSome = true ↔ threadCount ≤ HEIGHT * WIDTH := by
  constructor
  · intro h
    by_contra hlt
    have hs : splitSize WIDTH HEIGHT threadCount = 0 := by
      rw [splitSize_eq]
      exact Nat.div_eq_of_lt (by omega)
    have : allSteps WIDTH HEIGHT threadCount = none := by
      unfold allSteps
      rw [mapM_none _ _ 0 (List.mem_range.2 (by omega)) (taskIndices_none _ _ _ 0 hs)]
      rfl
    rw [this] at h
    cases h
  · intro h
    rw [allSteps_eq _ _ _ (splitSize_pos _ _ _ hT h)]
    rfl

theorem tFunc_task {D : Type} (ops : FloatOps D) (WIDTH HEIGHT threadCount i : Nat)
    (r : List Nat) (st : RenderState) (hr : taskIndices WIDTH HEIGHT threadCount i = some r) :
    tFunc ops WIDTH HEIGHT (enumeratePixels WIDTH HEIGHT)
        (taskBegin WIDTH HEIGHT threadCount i) (taskEnd WIDTH HEIGHT threadCount i) st =
      runSteps ops WIDTH HEIGHT (enumeratePixels WIDTH HEIGHT) r st := by
  unfold taskIndices at hr
  unfold tFunc
  rw [hr]

theorem foldlM_tFunc {D : Type} (ops : FloatOps D) (WIDTH HEIGHT threadCount : Nat)
    (g : Nat → List Nat) (l : List Nat)
    (h : ∀ i ∈ l, taskIndices WIDTH HEIGHT threadCount i = some (g i)) :
    ∀ st : RenderState,
      l.foldlM (fun st i => tFunc ops WIDTH HEIGHT (enumeratePixels WIDTH HEIGHT)
          (taskBegin WIDTH HEIGHT threadCount i) (taskEnd WIDTH HEIGHT threadCount i) st) st =
        runSteps ops WIDTH HEIGHT (enumeratePixels WIDTH HEIGHT) (l.map g).flatten st := by
  induction l with
  | nil => intro st; rfl
  | cons a t ih =>
    intro st
    rw [List.foldlM_cons, tFunc_task ops _ _ _ a (g a) st (h a (List.mem_cons_self _ _)),
      List.map_cons, List.flatten_cons, runSteps_append]
    have ih2 := ih (fun b hb => h b (List.mem_cons_of_mem _ hb))
    cases runSteps ops WIDTH HEIGHT (enumeratePixels WIDTH HEIGHT) (g a) st with
    | none => rfl
    | some s1 => exact ih2 s1

/-- Running the threads one after the other is running the combined step list. -/
theorem render_eq_runSteps {D : Type} (ops : FloatOps D) (WIDTH HEIGHT threadCount : Nat)
    (steps : List Nat) (hT : 1 ≤ threadCount)
    (hall : allSteps WIDTH HEIGHT threadCount = some steps) :
    render ops WIDTH HEIGHT threadCount =
      runSteps ops WIDTH HEIGHT (enumeratePixels WIDTH HEIGHT) steps
        (RenderState.init WIDTH HEIGHT) := by
  have hle : threadCount ≤ HEIGHT * WIDTH :=
    (allSteps_isSome_iff WIDTH HEIGHT threadCount hT).1 (by rw [hall]; rfl)
  have hs := splitSize_pos WIDTH HEIGHT threadCount hT hle
  rw [allSteps_eq _ _ _ hs] at hall
  cases hall
  unfold render
  exact foldlM_tFunc ops WIDTH HEIGHT threadCount _ (List.range threadCount)
    (fun i hi => taskIndices_eq _ _ _ i (List.mem_range.1 hi) hs) _

theorem allSteps_lt (WIDTH HEIGHT threadCount : Nat) (steps : List Nat) (hT : 1 ≤ threadCount)
    (hall : allSteps WIDTH HEIGHT threadCount = some steps) :
    ∀ k ∈ steps, k < HEIGHT * WIDTH := by
  have hle : threadCount ≤ HEIGHT * WIDTH :=
    (allSteps_isSome_iff WIDTH HEIGHT threadCount hT).1 (by rw [hall]; rfl)
  have hs := splitSize_pos WIDTH HEIGHT threadCount hT hle
  rw [allSteps_eq _ _ _ hs] at hall
  cases hall
  intro k hk
  rw [List.mem_flatten] at hk
  obtain ⟨r, hr, hkr⟩ := hk
  rw [List.mem_map] at hr
  obtain ⟨i, hi, rfl⟩ := hr
  exact taskIndices_lt WIDTH HEIGHT threadCount i _ (List.mem_range.1 hi)
    (taskIndices_eq _ _ _ i (List.mem_range.1 hi) hs) k hkr

theorem length_flatten_const (g : Nat → List Nat) (c : Nat) (l : List Nat)
    (h : ∀ i, (g i).length = c) : ((l.map g).flatten).length = l.length * c := by
  induction l with
  | nil => simp
  | cons a t ih =>
    rw [List.map_cons, List.flatten_cons, List.length_append, ih, h a, List.length_cons]
    ring

theorem allSteps_length (WIDTH HEIGHT threadCount : Nat) (steps : List Nat)
    (hT : 1 ≤ threadCount) (hall : allSteps WIDTH HEIGHT threadCount = some steps) :
    steps.length = threadCount * (splitSize WIDTH HEIGHT threadCount - 1) := by
  have hle : threadCount ≤ HEIGHT * WIDTH :=
    (allSteps_isSome_iff WIDTH HEIGHT threadCount hT).1 (by rw [hall]; rfl)
  have hs := splitSize_pos WIDTH HEIGHT threadCount hT hle
  rw [allSteps_eq _ _ _ hs] at hall
  cases hall
  rw [length_flatten_const _ (splitSize WIDTH HEIGHT threadCount - 1) _ (fun i => by simp)]
  simp

/-- The histogram total after a render: one count per processed index, that is
`threadCount * (splitSize - 1)`. -/
theorem render_histogram_sum {D : Type} (ops : FloatOps D) (WIDTH HEIGHT threadCount : Nat)
    (hT : 1 ≤ threadCount) (hle : threadCount ≤ HEIGHT * WIDTH) :
    ∃ st, render ops WIDTH HEIGHT threadCount = some st ∧
      st.histogram.length = MAX_ITERATIONS + 1 ∧
      st.histogram.sum = threadCount * (splitSize WIDTH HEIGHT threadCount - 1) := by
  have hsome := (allSteps_isSome_iff WIDTH HEIGHT threadCount hT).2 hle
  obtain ⟨steps, hall⟩ := Option.isSome_iff_exists.1 hsome
  obtain ⟨st, e, wf, hsum⟩ := runSteps_spec ops WIDTH HEIGHT steps (RenderState.init WIDTH HEIGHT)
    (init_wellFormed WIDTH HEIGHT) (allSteps_lt _ _ _ steps hT hall)
  refine ⟨st, by rw [render_eq_runSteps ops _ _ _ steps hT hall, e], wf.2.2.2, ?_⟩
  rw [hsum, allSteps_length _ _ _ steps hT hall]
  simp [RenderState.init, histogramInit]

/-! ## Claims about the partition -/

theorem splitSize_800_600_4 : splitSize 800 600 4 = 120000 := by
  rw [splitSize_eq]

/-- C9. Evaluation of the dispatch loop at `WIDTH = 800`, `HEIGHT = 600`, four
threads: `splitSize` is 120000 and the thread of round 1 visits the 119999
indices 120000, …, 239998; index 239999 = `1 * splitSize + splitSize - 1` is
not visited. -/
theorem taskIndices_round_one :
    splitSize 800 600 4 = 120000 ∧
    taskIndices 800 600 4 1 = some (List.range' 120000 119999) ∧
    (List.range' 120000 119999).length = 119999 ∧
    239999 ∉ List.range' 120000 119999 := by
  refine ⟨splitSize_800_600_4, ?_, by simp, by simp⟩
  rw [taskIndices_eq 800 600 4 1 (by decide) (by rw [splitSize_800_600_4]; decide),
    splitSize_800_600_4]

/-- C1. Evaluation at `WIDTH = 800`, `HEIGHT = 600`, four threads: index 119999
of the pixel vector, the pixel (799, 149), is in the index range of none of
the threads 0, …, 3. -/
theorem pixel_in_no_task :
    (enumeratePixels 800 600)[119999]? = some { x := 799, y := 149 } ∧
    ¬ ∃ i r, i < 4 ∧ taskIndices 800 600 4 i = some r ∧ 119999 ∈ r := by
  refine ⟨?_, ?_⟩
  · rw [enumeratePixels_getElem? 800 600 119999 (by decide)]
  · rintro ⟨i, r, hi, hr, hk⟩
    have h := chunk_last_not_mem 800 600 4 0 i r hi (by rw [splitSize_800_600_4]; decide) hr
    rw [splitSize_800_600_4] at h
    exact h hk

/-- C2. Evaluation at `WIDTH = 800`, `HEIGHT = 600`, four threads, for every
implementation of the floating-point operations: the render completes and the
101 histogram entries add up to 479996 = 4 * (120000 - 1). -/
theorem histogram_sum_800_600_4 {D : Type} (ops : FloatOps D) :
    ∃ st, render ops 800 600 4 = some st ∧ st.histogram.length = 101 ∧
      st.histogram.sum = 479996 := by
  obtain ⟨st, e, hl, hs⟩ := render_histogram_sum ops 800 600 4 (by decide) (by decide)
  rw [splitSize_800_600_4] at hs
  exact ⟨st, e, hl, hs⟩

theorem offset_injective (WIDTH x1 y1 x2 y2 : Nat) (h1 : x1 < WIDTH) (h2 : x2 < WIDTH)
    (hne : (x1, y1) ≠ (x2, y2)) : y1 * WIDTH + x1 ≠ y2 * WIDTH + x2 := by
  intro e
  apply hne
  have hW : 0 < WIDTH := by omega
  have d1 : (y1 * WIDTH + x1) / WIDTH = y1 := by
    rw [Nat.add_comm, Nat.add_mul_div_right _ _ hW, Nat.div_eq_of_lt h1, Nat.zero_add]
  have d2 : (y2 * WIDTH + x2) / WIDTH = y2 := by
    rw [Nat.add_comm, Nat.add_mul_div_right _ _ hW, Nat.div_eq_of_lt h2, Nat.zero_add]
  have ey : y1 = y2 := by rw [← d1, ← d2, e]
  subst ey
  have ex : x1 = x2 := by omega
  rw [ex]

/-- Inside the bound `threadCount ≤ WIDTH * HEIGHT`, where every thread has a
defined index range (`WIDTH, HEIGHT, threadCount ≥ 1`): the index ranges of two different
threads have no index in common; different indices of the pixel vector hold
pixels with different coordinates, all inside the grid; the three bytes
`setPixel` writes for one in-grid pixel are disjoint from the three it writes
for another; hence a byte of the pixel array written by thread `i` and by
thread `j` forces `i = j`. -/
theorem tasks_write_disjoint (WIDTH HEIGHT threadCount : Nat)
    (hW : 1 ≤ WIDTH) (hH : 1 ≤ HEIGHT) (hT : 1 ≤ threadCount) :
    (threadCount ≤ WIDTH * HEIGHT → ∀ i, i < threadCount →
      ∃ r, taskIndices WIDTH HEIGHT threadCount i = some r) ∧
    (∀ i j ri rj, i < threadCount → j < threadCount → i ≠ j →
      taskIndices WIDTH HEIGHT threadCount i = some ri →
      taskIndices WIDTH HEIGHT threadCount j = some rj → ∀ k, k ∈ ri → k ∉ rj) ∧
    (∀ k1 k2, k1 < (enumeratePixels WIDTH HEIGHT).length →
      k2 < (enumeratePixels WIDTH HEIGHT).length → k1 ≠ k2 →
      ∃ p1 p2, (enumeratePixels WIDTH HEIGHT)[k1]? = some p1 ∧
        (enumeratePixels WIDTH HEIGHT)[k2]? = some p2 ∧ (p1.x, p1.y) ≠ (p2.x, p2.y) ∧
        p1.x < WIDTH ∧ p1.y < HEIGHT ∧ p2.x < WIDTH ∧ p2.y < HEIGHT) ∧
    (∀ x1 y1 x2 y2, x1 < WIDTH → y1 < HEIGHT → x2 < WIDTH → y2 < HEIGHT →
      (x1, y1) ≠ (x2, y2) → ∀ d1 d2, d1 < 3 → d2 < 3 →
      (Bitmap.new WIDTH HEIGHT).pixelOffset x1 y1 + d1 ≠
        (Bitmap.new WIDTH HEIGHT).pixelOffset x2 y2 + d2) ∧
    (∀ i j ri rj, i < threadCount → j < threadCount →
      taskIndices WIDTH HEIGHT threadCount i = some ri →
      taskIndices WIDTH HEIGHT threadCount j = some rj →
      ∀ byte, taskWrites WIDTH HEIGHT ri byte → taskWrites WIDTH HEIGHT rj byte → i = j) := by
  have hoffs : ∀ x1 y1 x2 y2, x1 < WIDTH → x2 < WIDTH → (x1, y1) ≠ (x2, y2) →
      ∀ d1 d2, d1 < 3 → d2 < 3 →
      (Bitmap.new WIDTH HEIGHT).pixelOffset x1 y1 + d1 ≠
        (Bitmap.new WIDTH HEIGHT).pixelOffset x2 y2 + d2 := by
    intro x1 y1 x2 y2 h1 h2 hne d1 d2 hd1 hd2
    have := offset_injective WIDTH x1 y1 x2 y2 h1 h2 hne
    rw [pixelOffset_eq, pixelOffset_eq]
    show (y1 * WIDTH + x1) * 3 + d1 ≠ (y2 * WIDTH + x2) * 3 + d2
    omega
  have hpix : ∀ k1 k2, k1 < HEIGHT * WIDTH → k2 < HEIGHT * WIDTH → k1 ≠ k2 →
      ((k1 % WIDTH, k1 / WIDTH) : Nat × Nat) ≠ (k2 % WIDTH, k2 / WIDTH) := by
    intro k1 k2 _ _ hne e
    apply hne
    have e1 := congrArg Prod.fst e
    have e2 := congrArg Prod.snd e
    simp only at e1 e2
    have a := Nat.div_add_mod k1 WIDTH
    have b := Nat.div_add_mod k2 WIDTH
    rw [e1, e2] at a
    omega
  refine ⟨?_, ?_, ?_, ?_, ?_⟩
  · intro hle i hi
    exact ⟨_, taskIndices_eq _ _ _ i hi
      (splitSize_pos _ _ _ hT (by rw [Nat.mul_comm]; exact hle))⟩
  · intro i j ri rj hi hj hij hri hrj k hki hkj
    exact hij (taskIndices_disjoint _ _ _ i j ri rj hi hj hri hrj k hki hkj)
  · intro k1 k2 h1 h2 hne
    rw [enumeratePixels_length] at h1 h2
    refine ⟨_, _, enumeratePixels_getElem? _ _ k1 h1, enumeratePixels_getElem? _ _ k2 h2,
      hpix k1 k2 h1 h2 hne, Nat.mod_lt _ hW, (Nat.div_lt_iff_lt_mul hW).2 h1,
      Nat.mod_lt _ hW, (Nat.div_lt_iff_lt_mul hW).2 h2⟩
  · intro x1 y1 x2 y2 h1 _ h2 _ hne d1 d2 hd1 hd2
    exact hoffs x1 y1 x2 y2 h1 h2 hne d1 d2 hd1 hd2
  · intro i j ri rj hi hj hri hrj byte hbi hbj
    obtain ⟨k1, hk1, d1, hd1, e1⟩ := hbi
    obtain ⟨k2, hk2, d2, hd2, e2⟩ := hbj
    have l1 := taskIndices_lt _ _ _ i ri hi hri k1 hk1
    have l2 := taskIndices_lt _ _ _ j rj hj hrj k2 hk2
    rw [enumeratePixels_getElem? _ _ k1 l1, Option.map_some'] at e1
    rw [enumeratePixels_getElem? _ _ k2 l2, Option.map_some'] at e2
    have e1 := Option.some.inj e1
    have e2 := Option.some.inj e2
    by_cases hk : k1 = k2
    · subst hk
      exact taskIndices_disjoint _ _ _ i j ri rj hi hj hri hrj k1 hk1 hk2
    · exfalso
      exact hoffs _ _ _ _ (Nat.mod_lt _ hW) (Nat.mod_lt _ hW) (hpix k1 k2 l1 l2 hk) d1 d2
        hd1 hd2 (e1.trans e2.symm)

/-- Witness of `tasks_write_disjoint`: a 4×3 image and two threads. -/
theorem tasks_write_disjoint_witness :
    (1 ≤ 4 ∧ 1 ≤ 3 ∧ 1 ≤ 2) ∧
    taskIndices 4 3 2 0 = some [0, 1, 2, 3, 4] ∧
    taskIndices 4 3 2 1 = some [6, 7, 8, 9, 10] ∧
    ((2 ≤ 4 * 3 → ∀ i, i < 2 → ∃ r, taskIndices 4 3 2 i = some r) ∧
    (∀ i j ri rj, i < 2 → j < 2 → i ≠ j →
      taskIndices 4 3 2 i = some ri →
      taskIndices 4 3 2 j = some rj → ∀ k, k ∈ ri → k ∉ rj) ∧
    (∀ k1 k2, k1 < (enumeratePixels 4 3).length →
      k2 < (enumeratePixels 4 3).length → k1 ≠ k2 →
      ∃ p1 p2, (enumeratePixels 4 3)[k1]? = some p1 ∧
        (enumeratePixels 4 3)[k2]? = some p2 ∧ (p1.x, p1.y) ≠ (p2.x, p2.y) ∧
        p1.x < 4 ∧ p1.y < 3 ∧ p2.x < 4 ∧ p2.y < 3) ∧
    (∀ x1 y1 x2 y2, x1 < 4 → y1 < 3 → x2 < 4 → y2 < 3 →
      (x1, y1) ≠ (x2, y2) → ∀ d1 d2, d1 < 3 → d2 < 3 →
      (Bitmap.new 4 3).pixelOffset x1 y1 + d1 ≠
        (Bitmap.new 4 3).pixelOffset x2 y2 + d2) ∧
    (∀ i j ri rj, i < 2 → j < 2 →
      taskIndices 4 3 2 i = some ri →
      taskIndices 4 3 2 j = some rj →
      ∀ byte, taskWrites 4 3 ri byte → taskWrites 4 3 rj byte → i = j)) :=
  ⟨by decide, by decide, by decide,
    tasks_write_disjoint 4 3 2 (by decide) (by decide) (by decide)⟩

/-- Inside the bound `threadCount ≤ WIDTH * HEIGHT` (`WIDTH, HEIGHT,
threadCount ≥ 1`) the combined sequence of per-pixel steps of the threads
(thread 0 first) is defined, and executing any permutation of it from the
initial state (zeroed array, zeroed histogram) succeeds and ends in the same
array and histogram as running the threads in order. -/
theorem render_order_independent {D : Type} (ops : FloatOps D)
    (WIDTH HEIGHT threadCount : Nat)
    (hW : 1 ≤ WIDTH) (hH : 1 ≤ HEIGHT) (hT : 1 ≤ threadCount) :
    (threadCount ≤ WIDTH * HEIGHT → ∃ steps, allSteps WIDTH HEIGHT threadCount = some steps) ∧
    ∀ steps permuted : List Nat, allSteps WIDTH HEIGHT threadCount = some steps →
      permuted.Perm steps →
      ∃ final, render ops WIDTH HEIGHT threadCount = some final ∧
        runSteps ops WIDTH HEIGHT (enumeratePixels WIDTH HEIGHT) steps
          (RenderState.init WIDTH HEIGHT) = some final ∧
        runSteps ops WIDTH HEIGHT (enumeratePixels WIDTH HEIGHT) permuted
          (RenderState.init WIDTH HEIGHT) = some final := by
  refine ⟨?_, ?_⟩
  · intro hle
    exact Option.isSome_iff_exists.1
      ((allSteps_isSome_iff WIDTH HEIGHT threadCount hT).2 (by rw [Nat.mul_comm]; exact hle))
  · intro steps permuted hall hperm
    have hlt := allSteps_lt WIDTH HEIGHT threadCount steps hT hall
    obtain ⟨final, e, -⟩ := runSteps_spec ops WIDTH HEIGHT steps
      (RenderState.init WIDTH HEIGHT) (init_wellFormed WIDTH HEIGHT) hlt
    refine ⟨final, by rw [render_eq_runSteps ops _ _ _ steps hT hall, e], e, ?_⟩
    rw [runSteps_perm ops WIDTH HEIGHT permuted steps hperm
      (fun k hk => hlt k (hperm.subset hk)) _ (init_wellFormed WIDTH HEIGHT), e]

/-- Witness of `render_order_independent`: a 4×3 image, two threads, integer
arithmetic; the combined step list is `[0, 1, 2, 3, 4, 6, 7, 8, 9, 10]`. -/
theorem render_order_independent_witness :
    (1 ≤ 4 ∧ 1 ≤ 3 ∧ 1 ≤ 2) ∧
    allSteps 4 3 2 = some [0, 1, 2, 3, 4, 6, 7, 8, 9, 10] ∧
    ((2 ≤ 4 * 3 → ∃ steps, allSteps 4 3 2 = some steps) ∧
    ∀ steps permuted : List Nat, allSteps 4 3 2 = some steps →
      permuted.Perm steps →
      ∃ final, render intOps 4 3 2 = some final ∧
        runSteps intOps 4 3 (enumeratePixels 4 3) steps (RenderState.init 4 3) = some final ∧
        runSteps intOps 4 3 (enumeratePixels 4 3) permuted (RenderState.init 4 3) =
          some final) :=
  ⟨by decide, by decide,
    render_order_independent intOps 4 3 2 (by decide) (by decide) (by decide)⟩

/-- C10. For an iteration count `n ≤ MAX_ITERATIONS = 100`, the colour byte is
`⌊256 * n / 100⌋ ^ 3 mod 256`; and a step whose pixel has iteration count `n`
stores that byte as red and as green and 0 as blue: at the pixel's offset
`3 * k` the array then holds 0, the byte, the byte. -/
theorem pixelColor_spec (n : Nat) (hn : n ≤ MAX_ITERATIONS) :
    MAX_ITERATIONS = 100 ∧
    pixelColor n = ((256 * n / 100) ^ 3) % 256 ∧
    ∀ (D : Type) (ops : FloatOps D) (WIDTH HEIGHT k : Nat) (st : RenderState),
      st.WellFormed WIDTH HEIGHT → k < HEIGHT * WIDTH →
      pixelIterations ops WIDTH HEIGHT (k % WIDTH) (k / WIDTH) = n →
      ∃ h1 b1,
        pixelEval ops WIDTH HEIGHT st.histogram (k % WIDTH) (k / WIDTH) =
          some (h1, ((256 * n / 100) ^ 3) % 256) ∧
        st.bitmap.setPixel (k % WIDTH) (k / WIDTH) (((256 * n / 100) ^ 3) % 256)
          (((256 * n / 100) ^ 3) % 256) 0 = some b1 ∧
        pixelStep ops WIDTH HEIGHT (enumeratePixels WIDTH HEIGHT) st k =
          some { bitmap := b1, histogram := h1 } ∧
        b1.m_pPixels[3 * k]? = some 0 ∧
        b1.m_pPixels[3 * k + 1]? = some (((256 * n / 100) ^ 3) % 256) ∧
        b1.m_pPixels[3 * k + 2]? = some (((256 * n / 100) ^ 3) % 256) := by
  have hc : pixelColor n = ((256 * n / 100) ^ 3) % 256 :=
    pixelColor_table n (Nat.lt_succ_of_le hn)
  refine ⟨rfl, hc, ?_⟩
  intro D ops WIDTH HEIGHT k st hst hk hit
  obtain ⟨st1, e, -, -, -, hset⟩ := pixelStep_spec ops WIDTH HEIGHT st k hst hk
  obtain ⟨h1, he, -⟩ :=
    pixelEval_spec ops WIDTH HEIGHT st.histogram (k % WIDTH) (k / WIDTH) hst.2.2.2
  rw [hit, hc] at hset he
  have g0 := setPixel_getElem? _ _ _ _ _ _ _ hset (3 * k)
  have g1 := setPixel_getElem? _ _ _ _ _ _ _ hset (3 * k + 1)
  have g2 := setPixel_getElem? _ _ _ _ _ _ _ hset (3 * k + 2)
  have hoff : st.bitmap.pixelOffset (k % WIDTH) (k / WIDTH) = 3 * k := by
    rw [pixelOffset_eq, hst.1]
    have := Nat.div_add_mod k WIDTH
    rw [Nat.mul_comm] at this
    omega
  rw [hoff] at g0 g1 g2
  refine ⟨h1, st1.bitmap, he, hset, ?_, ?_, ?_, ?_⟩
  · rw [e]
    simp only [pixelStep, enumeratePixels_getElem? WIDTH HEIGHT k hk, he, hset] at e
    exact e.symm
  · rw [g0, if_pos rfl]
  · rw [g1, if_neg (by omega), if_pos rfl]
  · rw [g2, if_neg (by omega), if_neg (by omega), if_pos rfl]

/-- Witness of `pixelColor_spec`: iteration count 37, colour byte 120. -/
theorem pixelColor_spec_witness :
    37 ≤ MAX_ITERATIONS ∧ pixelColor 37 = 120 ∧
    (MAX_ITERATIONS = 100 ∧
    pixelColor 37 = ((256 * 37 / 100) ^ 3) % 256 ∧
    ∀ (D : Type) (ops : FloatOps D) (WIDTH HEIGHT k : Nat) (st : RenderState),
      st.WellFormed WIDTH HEIGHT → k < HEIGHT * WIDTH →
      pixelIterations ops WIDTH HEIGHT (k % WIDTH) (k / WIDTH) = 37 →
      ∃ h1 b1,
        pixelEval ops WIDTH HEIGHT st.histogram (k % WIDTH) (k / WIDTH) =
          some (h1, ((256 * 37 / 100) ^ 3) % 256) ∧
        st.bitmap.setPixel (k % WIDTH) (k / WIDTH) (((256 * 37 / 100) ^ 3) % 256)
          (((256 * 37 / 100) ^ 3) % 256) 0 = some b1 ∧
        pixelStep ops WIDTH HEIGHT (enumeratePixels WIDTH HEIGHT) st k =
          some { bitmap := b1, histogram := h1 } ∧
        b1.m_pPixels[3 * k]? = some 0 ∧
        b1.m_pPixels[3 * k + 1]? = some (((256 * 37 / 100) ^ 3) % 256) ∧
        b1.m_pPixels[3 * k + 2]? = some (((256 * 37 / 100) ^ 3) % 256)) :=
  ⟨by decide, by decide, pixelColor_spec 37 (by decide)⟩

/-! ## More threads than pixels -/

/-- The round-by-round loop in closed form: inside `begin ≤ end ≤ size` it
visits `begin, …, end - 1` and ends; otherwise it visits every element from
`begin` on and the iterator leaves the vector. -/
theorem iteratorLoop_eq (size : Nat) (end_ : Int) :
    ∀ (fuel it : Nat), size + 1 ≤ fuel + it →
      iteratorLoop size end_ fuel it =
        if (it : Int) ≤ end_ ∧ end_ ≤ (size : Int)
        then (List.range' it (end_.toNat - it), true)
        else (List.range' it (size - it), false) := by
  intro fuel
  induction fuel with
  | zero =>
    intro it hf
    have h0 : size - it = 0 := by omega
    rw [if_neg (by omega), h0]
    rfl
  | succ n ih =>
    intro it hf
    unfold iteratorLoop
    by_cases h1 : size < it
    · have h0 : size - it = 0 := by omega
      rw [if_pos h1, if_neg (by omega), h0]
      rfl
    · rw [if_neg h1]
      by_cases h2 : (it : Int) = end_
      · have h0 : end_.toNat - it = 0 := by omega
        rw [if_pos h2, if_pos (by omega), h0]
        rfl
      · rw [if_neg h2]
        by_cases h3 : it < size
        · rw [if_pos h3, ih (it + 1) (by omega)]
          by_cases h4 : (it : Int) ≤ end_ ∧ end_ ≤ (size : Int)
          · have e : end_.toNat - it = (end_.toNat - (it + 1)) + 1 := by omega
            rw [if_pos h4, if_pos (by omega), e, List.range'_succ]
          · have e : size - it = (size - (it + 1)) + 1 := by omega
            rw [if_neg h4, if_neg (by omega), e, List.range'_succ]
        · have h0 : size - it = 0 := by omega
          rw [if_neg h3, if_neg (by omega), h0]
          rfl

/-- The index range of a thread is defined exactly when its loop ends, and is
then the list of indices the loop visits. -/
theorem taskIndices_iff_taskTrace (WIDTH HEIGHT threadCount i : Nat) (r : List Nat) :
    taskIndices WIDTH HEIGHT threadCount i = some r ↔
      taskTrace WIDTH HEIGHT threadCount i = (r, true) := by
  unfold taskIndices iteratorIndices taskTrace
  rw [iteratorLoop_eq _ _ _ _ (by omega)]
  split <;> simp

/-- With more threads than pixels every thread starts at index 0 with
`end = -1`, runs its body for every index of the vector and then leaves it. -/
theorem taskTrace_overflow (WIDTH HEIGHT threadCount i : Nat)
    (hlt : HEIGHT * WIDTH < threadCount) :
    taskBegin WIDTH HEIGHT threadCount i = 0 ∧ taskEnd WIDTH HEIGHT threadCount i = -1 ∧
      taskTrace WIDTH HEIGHT threadCount i = (List.range' 0 (HEIGHT * WIDTH), false) := by
  have hs : splitSize WIDTH HEIGHT threadCount = 0 := by
    rw [splitSize_eq]
    exact Nat.div_eq_of_lt hlt
  have hb : taskBegin WIDTH HEIGHT threadCount i = 0 := by
    unfold taskBegin
    rw [hs, Nat.mul_zero]
  have he : taskEnd WIDTH HEIGHT threadCount i = -1 := by
    unfold taskEnd
    rw [hb, hs]
    rfl
  refine ⟨hb, he, ?_⟩
  unfold taskTrace
  rw [iteratorLoop_eq _ _ _ _ (by omega), hb, he, enumeratePixels_length]
  rw [if_neg (by omega)]
  rfl

end Fractal
